import Mathlib

/-!
Verification development for the `runtime_generics` library
(`src/runtime_generics/__init__.py`, plus the legacy single-file module
`src/runtime_generics.py`).

Shallow embedding conventions:
* Python type-descriptor values (concrete classes, `typing.Any`, `TypeVar`s,
  `TypeVarTuple`s, `Unpack[...]` aliases, nested generic aliases, tuples used
  as argument groups, `...`, and the `typing` module's internal `_TypingEmpty`
  and `_TypingEllipsis` sentinels) are the inductive `Ty`.
* Origins (declared classes) are identified by their name (`String`).
  A `World` carries the per-origin declared parameter list
  (`__parameters__`) and the process-wide `parent_aliases_registry`,
  plus the host `issubclass` relation on plain classes.
* Exceptions are modelled with `Except PyExc`; recursion that Python bounds
  only by the interpreter stack is given explicit fuel whose exhaustion is
  `PyExc.recursionError`.
* `typing`-module special classes (the `cls.__module__ == "typing"` branches)
  are outside the modelled fragment: every modelled origin is a user class,
  for which those branches are not taken.
-/

/-- Variance of a `TypeVar` (`__covariant__` / `__contravariant__` flags). -/
inductive Variance where
  | inv
  | cov
  | contra
deriving DecidableEq

/-- Python type-descriptor values flowing through type-argument tuples. -/
inductive Ty where
  /-- a plain (non-generic) class such as `int`, `bool`, `str` -/
  | base (name : String)
  /-- `typing.Any` -/
  | anyTy
  /-- a `TypeVar`, with its declared variance -/
  | tvar (name : String) (v : Variance)
  /-- a `TypeVarTuple` (variable-length parameter group) -/
  | tvarTuple (name : String)
  /-- `Unpack[t]` (a generic alias whose `__origin__` is `Unpack`
      and whose `__args__` is the one-element tuple `(t,)`) -/
  | unpack (t : Ty)
  /-- a generic alias: origin class applied to arguments
      (`_typing_GenericAlias` / `_AliasProxy`; both compare structurally
      by `(__origin__, __args__)`) -/
  | alias (origin : String) (args : List Ty)
  /-- a tuple object used as a value (argument groups, the empty tuple `()`) -/
  | tup (ts : List Ty)
  /-- the `...` (Ellipsis) object -/
  | ellipsis
  /-- the `typing._TypingEmpty` sentinel -/
  | typingEmptySentinel
  /-- the `typing._TypingEllipsis` sentinel -/
  | typingEllipsisSentinel

mutual

/-- Structural (Python `__eq__`) equality test on type descriptors. -/
def Ty.beq : Ty → Ty → Bool
  | .base s, .base t => s == t
  | .anyTy, .anyTy => true
  | .tvar n v, .tvar n' v' => n == n' && decide (v = v')
  | .tvarTuple n, .tvarTuple n' => n == n'
  | .unpack t, .unpack u => Ty.beq t u
  | .alias o as, .alias o' as' => o == o' && Ty.beqList as as'
  | .tup ts, .tup us => Ty.beqList ts us
  | .ellipsis, .ellipsis => true
  | .typingEmptySentinel, .typingEmptySentinel => true
  | .typingEllipsisSentinel, .typingEllipsisSentinel => true
  | _, _ => false

/-- Pointwise equality test on argument lists. -/
def Ty.beqList : List Ty → List Ty → Bool
  | [], [] => true
  | x :: xs, y :: ys => Ty.beq x y && Ty.beqList xs ys
  | _, _ => false

end

mutual

theorem Ty.beq_iff : ∀ a b : Ty, Ty.beq a b = true ↔ a = b
  | .base s, b => by cases b <;> simp [Ty.beq]
  | .anyTy, b => by cases b <;> simp [Ty.beq]
  | .tvar n v, b => by cases b <;> simp [Ty.beq]
  | .tvarTuple n, b => by cases b <;> simp [Ty.beq]
  | .ellipsis, b => by cases b <;> simp [Ty.beq]
  | .typingEmptySentinel, b => by cases b <;> simp [Ty.beq]
  | .typingEllipsisSentinel, b => by cases b <;> simp [Ty.beq]
  | .unpack t, .unpack u => by
    simpa only [Ty.beq, Ty.unpack.injEq] using Ty.beq_iff t u
  | .unpack t, .base s => by simp [Ty.beq]
  | .unpack t, .anyTy => by simp [Ty.beq]
  | .unpack t, .tvar n v => by simp [Ty.beq]
  | .unpack t, .tvarTuple n => by simp [Ty.beq]
  | .unpack t, .alias o as => by simp [Ty.beq]
  | .unpack t, .tup ts => by simp [Ty.beq]
  | .unpack t, .ellipsis => by simp [Ty.beq]
  | .unpack t, .typingEmptySentinel => by simp [Ty.beq]
  | .unpack t, .typingEllipsisSentinel => by simp [Ty.beq]
  | .alias o as, .alias o' as' => by
    simp only [Ty.beq, Ty.alias.injEq, Bool.and_eq_true, beq_iff_eq]
    exact and_congr Iff.rfl (Ty.beqList_iff as as')
  | .alias o as, .base s => by simp [Ty.beq]
  | .alias o as, .anyTy => by simp [Ty.beq]
  | .alias o as, .tvar n v => by simp [Ty.beq]
  | .alias o as, .tvarTuple n => by simp [Ty.beq]
  | .alias o as, .unpack t => by simp [Ty.beq]
  | .alias o as, .tup ts => by simp [Ty.beq]
  | .alias o as, .ellipsis => by simp [Ty.beq]
  | .alias o as, .typingEmptySentinel => by simp [Ty.beq]
  | .alias o as, .typingEllipsisSentinel => by simp [Ty.beq]
  | .tup ts, .tup us => by
    simpa only [Ty.beq, Ty.tup.injEq] using Ty.beqList_iff ts us
  | .tup ts, .base s => by simp [Ty.beq]
  | .tup ts, .anyTy => by simp [Ty.beq]
  | .tup ts, .tvar n v => by simp [Ty.beq]
  | .tup ts, .tvarTuple n => by simp [Ty.beq]
  | .tup ts, .unpack t => by simp [Ty.beq]
  | .tup ts, .alias o as => by simp [Ty.beq]
  | .tup ts, .ellipsis => by simp [Ty.beq]
  | .tup ts, .typingEmptySentinel => by simp [Ty.beq]
  | .tup ts, .typingEllipsisSentinel => by simp [Ty.beq]

theorem Ty.beqList_iff : ∀ xs ys : List Ty, Ty.beqList xs ys = true ↔ xs = ys
  | [], [] => by simp [Ty.beqList]
  | [], _ :: _ => by simp [Ty.beqList]
  | _ :: _, [] => by simp [Ty.beqList]
  | x :: xs, y :: ys => by
    simp only [Ty.beqList, Bool.and_eq_true, List.cons.injEq]
    exact and_congr (Ty.beq_iff x y) (Ty.beqList_iff xs ys)

end

instance : DecidableEq Ty := fun a b =>
  decidable_of_iff (Ty.beq a b = true) (Ty.beq_iff a b)

/-- Exceptions that the modelled code can raise. -/
inductive PyExc where
  /-- `RuntimeError` (inconsistent hierarchy; also `StopIteration` escaping a
      generator, which Python converts to `RuntimeError`) -/
  | runtimeError
  /-- `TypeError` (e.g. `issubclass` applied to a non-class) -/
  | typeError
  /-- `ValueError` (e.g. `islice` with a negative length) -/
  | valueError
  /-- `KeyError` (missing key in a parametrization mapping) -/
  | keyError
  /-- `AttributeError` (attribute such as `__parameters__` missing) -/
  | attributeError
  /-- `RecursionError`: stands for exhausting the interpreter stack; in this
      model, exhausting the explicit fuel of a recursive definition -/
  | recursionError
deriving DecidableEq

/-- The observable content of a parametrized alias:
`(__origin__, __args__)`.  Plain `_typing_GenericAlias` objects and
`_AliasProxy` objects with the same origin and args compare equal in Python
(`_GenericAlias.__eq__`), so one structural representation suffices. -/
abbrev Alias := String × List Ty

/-- The world a family of armed classes lives in. -/
structure World where
  /-- `origin.__parameters__`: the declared parameter list of each origin
      (bare `TypeVar`s / `TypeVarTuple`s, as `typing` reports them). -/
  classes : String → List Ty
  /-- `parent_aliases_registry`: for each origin, the registered parametrized
      parents, each stored as `(parent origin, raw registered args)`
      (the args may contain parameter variables and `Unpack` references).
      A `defaultdict(list)`: unknown origins map to `[]`. -/
  registry : String → List Alias
  /-- the host `issubclass` relation restricted to plain classes -/
  issub : String → String → Bool

/-- `isinstance(x, TypeVarTuple)`. -/
def isTypeVarTuple : Ty → Bool
  | .tvarTuple _ => true
  | _ => false

/-- `isinstance(x, TypeVar)` (a `TypeVarTuple` is not a `TypeVar`). -/
def isTypeVarB : Ty → Bool
  | .tvar _ _ => true
  | _ => false

/-- `_has_origin(x) and x.__origin__ is Unpack`. -/
def isUnpackAlias : Ty → Bool
  | .unpack _ => true
  | _ => false

/-- `isinstance(x, _typing_GenericAlias)`: generic aliases, including
`Unpack[...]` aliases. -/
def isGenericAlias : Ty → Bool
  | .alias _ _ => true
  | .unpack _ => true
  | _ => false

/-- The per-element normalization performed by `_normalize_generic_args`:
`() if arg is _TypingEmpty else ... if arg is _TypingEllipsis else arg`. -/
def normArg : Ty → Ty
  | .typingEmptySentinel => .tup []
  | .typingEllipsisSentinel => .ellipsis
  | t => t

/-- `_normalize_generic_args` on an argument tuple (the subscription machinery
always hands the handle a tuple; a single non-tuple subscript argument arrives
already wrapped as a one-element list here). -/
def normalize_generic_args (args : List Ty) : List Ty :=
  args.map normArg

/-- `_normalize_generic_args` applied to a single Python value that may or may
not be a tuple: a non-tuple value is wrapped as a one-element tuple first
(`if not isinstance(args, tuple): args = (args,)`). -/
def normalize_generic_args_val : Ty → List Ty
  | .tup ts => ts.map normArg
  | t => [normArg t]

/-- Python `dict.get(k, default)` over an association list built by `dict(...)`
from key/value pairs: a later pair with the same key overrides an earlier one,
so lookup scans from the right. -/
def dictGet (m : List (Ty × Ty)) (k : Ty) : Option Ty :=
  (m.reverse.find? (fun e => decide (e.1 = k))).map (·.2)

/-- `dict.get(k, default)` with an explicit default. -/
def dictGetD (m : List (Ty × Ty)) (k : Ty) (d : Ty) : Ty :=
  (dictGet m k).getD d

/-- Loop body of `_get_parametrization_impl`.  `nargs`/`nparams` are
`len(args)`/`len(params)` of the top-level call, `i` is the `enumerate` index,
`rem` is what is left of the shared `arg_iter`.

For a `TypeVarTuple` parameter the code computes
`take = len(args) - i - len(params[i+1:])` and consumes `islice(arg_iter, take)`
(a negative `take` raises `ValueError`); a regular parameter consumes
`next(arg_iter)` (exhaustion raises `StopIteration`, which escaping the
generator becomes `RuntimeError`). -/
def get_parametrization_go (nargs nparams : Nat) :
    Nat → List Ty → List Ty → Except PyExc (List (Ty × Ty))
  | _, [], _ => .ok []
  | i, p :: ps, rem =>
    if isTypeVarTuple p then
      -- len(params[i+1:]) = nparams - i - 1 (Nat subtraction matches slicing)
      let afterCount := nparams - i - 1
      if nargs < i + afterCount then .error .valueError
      else
        let take := nargs - i - afterCount
        match get_parametrization_go nargs nparams (i + 1) ps (rem.drop take) with
        | .error e => .error e
        | .ok rest => .ok ((p, .tup (rem.take take)) :: rest)
    else
      match rem with
      | [] => .error .runtimeError
      | a :: rem' =>
        match get_parametrization_go nargs nparams (i + 1) ps rem' with
        | .error e => .error e
        | .ok rest => .ok ((p, a) :: rest)

/-- `_get_parametrization_impl` / `_get_parametrization`: maps declared
parameters to arguments; an empty argument tuple yields the empty mapping. -/
def get_parametrization_impl (params args : List Ty) :
    Except PyExc (List (Ty × Ty)) :=
  if args.isEmpty then .ok []
  else get_parametrization_go args.length params.length 0 params args

mutual

/-- One iteration of the loop body of `_replace_type_arguments_impl`, yielding
the (possibly spliced) replacement of a single argument:
* a `TypeVarTuple` splices `_normalize_generic_args(replacements.get(arg, ()))`;
* an `Unpack[t]` alias recurses into its `__args__` (the one-tuple `(t,)`)
  and splices the result;
* any other alias is rebuilt as `_typing_GenericAlias(origin, replaced args)`;
* otherwise the argument is looked up (defaulting to itself) and a residual
  `TypeVar` is replaced with `Any`. -/
def replace_type_arguments_arg (repl : List (Ty × Ty)) : Ty → List Ty
  | .tvarTuple n => normalize_generic_args_val (dictGetD repl (.tvarTuple n) (.tup []))
  | .unpack t => replace_type_arguments_arg repl t
  | .alias o as => [.alias o (replace_type_arguments repl as)]
  | arg =>
    let replaced := dictGetD repl arg arg
    [if isTypeVarB replaced then .anyTy else replaced]

/-- `_replace_type_arguments`: the whole-tuple form of the above. -/
def replace_type_arguments (repl : List (Ty × Ty)) : List Ty → List Ty
  | [] => []
  | a :: rest => replace_type_arguments_arg repl a ++ replace_type_arguments repl rest

end

/-- The values the retrieval API accepts: class subscript handles and nested
type expressions (`tyV`), bare armed classes, instances stamped with captured
arguments, and instances without captured arguments. -/
inductive RGVal where
  /-- a type-expression value; a parametrized handle is `tyV (.alias o args)` -/
  | tyV (t : Ty)
  /-- a bare armed class (no `__args__` attribute; `__parameters__` declared) -/
  | cls (name : String)
  /-- an instance stamped by `runtime_generic_init`: `__origin__ = origin`,
      `__args__ = GenericArgs(args)` -/
  | inst (origin : String) (args : List Ty)
  /-- an instance of the named class without `__args__`/`__origin__` -/
  | instBare (name : String)
deriving DecidableEq

/-- `_get_default_alias` for a value whose origin class is known:
`(Any,) * (len(params) - any(isinstance(p, TypeVarTuple) for p in params))`
applied to the origin. -/
def get_default_alias (w : World) (origin : String) : Alias :=
  let params := w.classes origin
  (origin,
    List.replicate (params.length - (if params.any isTypeVarTuple then 1 else 0))
      Ty.anyTy)

/-- The `get_alias` branch for a value that has `__args__` (lines 487-499):
if any argument is an `Unpack[...]` alias or a `TypeVar`, fall back to the
"any"-filled default alias, else keep `(origin, args)`.  (The
`rg.__module__ == "typing" and rg._name` branch is never taken for the
modelled user classes.) -/
def get_alias_of_args (w : World) (origin : String) (args : List Ty) : Alias :=
  if args.any (fun a => isUnpackAlias a || isTypeVarB a) then
    get_default_alias w origin
  else
    (origin, args)

/-- `get_alias`: canonical parametrized-alias form of any runtime generic.
Values without `__args__` go through `_get_default_alias`; for a
type-expression value that is not a generic alias, `_get_default_alias` needs
`__parameters__`, which such values lack (`AttributeError`). -/
def get_alias (w : World) : RGVal → Except PyExc Alias
  | .cls n => .ok (get_default_alias w n)
  | .instBare n => .ok (get_default_alias w n)
  | .inst o args => .ok (get_alias_of_args w o args)
  | .tyV (.alias o args) => .ok (get_alias_of_args w o args)
  | .tyV _ => .error .attributeError

/-- `get_type_arguments`: `getattr(rg, "__args__", ())`, returned as a tuple
when it is the `GenericArgs` marker, else `typing.get_args` of that attribute
value (which is `()` for anything that is not itself a generic alias).
Handle and stamped-instance `__args__` are `GenericArgs`; bare classes and
plain values have no `__args__`. -/
def get_type_arguments : RGVal → List Ty
  | .tyV (.alias _ args) => args
  | .inst _ args => args
  | _ => []

/-- `_get_generic_signature(...).__args__`: the declared parameter tuple of
the relevant origin (`origin.__parameters__`).  Modelled origins are user
classes, so the `cls.__module__ == "typing"` branch is never taken; a
type-expression value that is neither an alias nor a class has no
`__parameters__` (`AttributeError`). -/
def generic_signature_args (w : World) : RGVal → Except PyExc (List Ty)
  | .tyV (.alias o _) => .ok (w.classes o)
  | .inst o _ => .ok (w.classes o)
  | .cls n => .ok (w.classes n)
  | .instBare n => .ok (w.classes n)
  | .tyV _ => .error .attributeError

/-- `get_parametrization`: resolver mapping of the declared parameters of the
value's origin against its captured type arguments. -/
def get_parametrization (w : World) (rg : RGVal) : Except PyExc (List (Ty × Ty)) :=
  match generic_signature_args w rg with
  | .error e => .error e
  | .ok sigArgs => get_parametrization_impl sigArgs (get_type_arguments rg)

/-- `_AliasProxy.copy_with(params, owner)`:
`_AliasProxy(owner or self.__origin__, params or self.__args__)`.
Python truthiness of the arguments matters: a `None` or *empty* replacement
tuple is falsy, so the constructed handle falls back to the proxy's own
stored `__args__` (and `None` owner falls back to `__origin__`). -/
def copy_with (self : Alias) (params : Option (List Ty))
    (owner : Option String) : Alias :=
  (owner.getD self.1,
   match params with
   | none => self.2
   | some ps => if ps.isEmpty then self.2 else ps)

/-- `_get_parents` / `get_parents`.
* A value without `__origin__` (bare class / bare instance): the registered
  parents, each passed through `get_alias`.
* A parametrized value with empty `__args__`: likewise.
* Otherwise: resolver mapping of the origin's declared parameters against the
  args, then each registered parent rewritten by
  `parent.copy_with(_replace_type_arguments(parametrization,
  parent.__args__))` — including `copy_with`'s falsy-tuple fallback, under
  which an empty substituted tuple keeps the parent's original arguments. -/
def get_parents (w : World) : RGVal → Except PyExc (List Alias)
  | .cls n => .ok ((w.registry n).map (fun p => get_alias_of_args w p.1 p.2))
  | .instBare n => .ok ((w.registry n).map (fun p => get_alias_of_args w p.1 p.2))
  | .tyV (.alias o args) =>
    if args.isEmpty then
      .ok ((w.registry o).map (fun p => get_alias_of_args w p.1 p.2))
    else
      match get_parametrization_impl (w.classes o) args with
      | .error e => .error e
      | .ok pm =>
        .ok ((w.registry o).map (fun p =>
          copy_with p (some (replace_type_arguments pm p.2)) none))
  | .inst o args =>
    if args.isEmpty then
      .ok ((w.registry o).map (fun p => get_alias_of_args w p.1 p.2))
    else
      match get_parametrization_impl (w.classes o) args with
      | .error e => .error e
      | .ok pm =>
        .ok ((w.registry o).map (fun p =>
          copy_with p (some (replace_type_arguments pm p.2)) none))
  | .tyV (.base n) => .ok ((w.registry n).map (fun p => get_alias_of_args w p.1 p.2))
  | .tyV _ => .error .attributeError

/-- `del seq[0] if seq[0] == candidate` from `_c3_merge`. -/
def stripHead {A : Type} [DecidableEq A] (c : A) : List A → List A
  | [] => []
  | x :: xs => if x = c then xs else x :: xs

/-- The candidate-search loop of `_c3_merge`: the head of the first sequence
that occurs in no sequence's tail, if any (`all` ranges over the full filtered
sequence list, including the sequence the head came from). -/
def findC3Candidate {A : Type} [DecidableEq A] (all : List (List A)) :
    List (List A) → Option A
  | [] => none
  | [] :: rest => findC3Candidate all rest
  | (c :: _) :: rest =>
    if ∀ s2 ∈ all, c ∉ s2.tail then some c else findC3Candidate all rest

/-- Total element count of a sequence list (termination measure of the
`_c3_merge` while-loop). -/
def totalLen {A : Type} (seqs : List (List A)) : Nat :=
  (seqs.map List.length).sum

/-- The `_c3_merge` while-loop, with explicit fuel (in Python the loop always
terminates because each iteration removes at least one element occurrence;
`c3_merge` below supplies provably sufficient fuel).  Each iteration purges
empty sequences, finds a merge candidate among the heads (no candidate is the
fatal "Inconsistent hierarchy" `RuntimeError`), emits it, and deletes it from
every sequence having it as head. -/
def c3Go {A : Type} [DecidableEq A] : Nat → List (List A) → Except PyExc (List A)
  | 0, _ => .error .recursionError
  | n + 1, seqs =>
    let ss := seqs.filter (fun s => !s.isEmpty)
    if ss.isEmpty then .ok []
    else
      match findC3Candidate ss ss with
      | none => .error .runtimeError
      | some c =>
        match c3Go n (ss.map (stripHead c)) with
        | .error e => .error e
        | .ok r => .ok (c :: r)

/-- `_c3_merge`, with fuel sufficient for the loop to run to completion. -/
def c3_merge {A : Type} [DecidableEq A] (seqs : List (List A)) :
    Except PyExc (List A) :=
  c3Go (totalLen seqs + 1) seqs

/-- `_get_mro` / `get_mro`: C3 merge of
`[[get_alias(cls)], *map(_get_mro, parents), [*parents]]`.
The recursion through registered parents gets explicit fuel (Python bounds it
only by the interpreter stack). -/
def get_mro (w : World) : Nat → RGVal → Except PyExc (List Alias)
  | 0, _ => .error .recursionError
  | fuel + 1, cls =>
    match get_alias w cls with
    | .error e => .error e
    | .ok selfAlias =>
      match get_parents w cls with
      | .error e => .error e
      | .ok parents =>
        match parents.mapM (fun p => get_mro w fuel (.tyV (.alias p.1 p.2))) with
        | .error e => .error e
        | .ok parentMros => c3_merge ([selfAlias] :: parentMros ++ [parents])

/-- `issubclass` on plain classes; non-classes raise `TypeError`. -/
def issubclassE (w : World) : Ty → Ty → Except PyExc Bool
  | .base a, .base b => .ok (w.issub a b)
  | _, _ => .error .typeError

/-- `_inner_type_check(subtype, cls, param)`.  `tc` is the recursive
`type_check` entry point (at one less fuel), used when either side is itself a
generic alias.  `param.__covariant__` / `param.__contravariant__` require the
parameter to be a `TypeVar` (`AttributeError` otherwise; `TypeVarTuple`
parameters were already handled). -/
def inner_type_check (w : World) (tc : Ty → Ty → Except PyExc Bool)
    (subtype cls param : Ty) : Except PyExc Bool :=
  if subtype = .anyTy ∨ cls = .anyTy then .ok true
  else
    let invariantPasses := decide (subtype = cls)
    if isTypeVarTuple param then .ok invariantPasses
    else if isGenericAlias subtype || isGenericAlias cls then
      match param with
      | .tvar _ .cov => tc subtype cls
      | .tvar _ .contra => tc cls subtype
      | .tvar _ .inv => .ok invariantPasses
      | _ => .error .attributeError
    else
      match param with
      | .tvar _ .cov => issubclassE w subtype cls
      | .tvar _ .contra => issubclassE w cls subtype
      | .tvar _ .inv => .ok invariantPasses
      | _ => .error .attributeError

/-- `all(map(partial(_inner_type_check, param=param), mro_entry_args,
cls_args))`: `map` pairs up to the shorter list, `all` short-circuits at the
first `False`. -/
def all_inner_type_check (w : World) (tc : Ty → Ty → Except PyExc Bool)
    (param : Ty) : List Ty → List Ty → Except PyExc Bool
  | x :: xs, y :: ys =>
    match inner_type_check w tc x y param with
    | .error e => .error e
    | .ok true => all_inner_type_check w tc param xs ys
    | .ok false => .ok false
  | _, _ => .ok true

/-- `if not isinstance(x, tuple): x = (x,)` on a parametrization value. -/
def tupleize : Ty → List Ty
  | .tup ts => ts
  | t => [t]

/-- `(param,) = param.__args__ if param.__origin__ is Unpack`. -/
def unwrapUnpack : Ty → Ty
  | .unpack t => t
  | p => p

/-- The inner parameter loop of `type_check`: for each declared parameter of
`cls`'s origin, look both resolved values up (`KeyError` when absent), coerce
to tuples, and compare pairwise; the loop's `else` (no break) means every
parameter matched. -/
def type_check_params (w : World) (tc : Ty → Ty → Except PyExc Bool)
    (mroParametrization clsParametrization : List (Ty × Ty)) :
    List Ty → Except PyExc Bool
  | [] => .ok true
  | origParam :: rest =>
    let param := unwrapUnpack origParam
    match dictGet mroParametrization param with
    | none => .error .keyError
    | some mroVal =>
      match dictGet clsParametrization param with
      | none => .error .keyError
      | some clsVal =>
        match all_inner_type_check w tc param (tupleize mroVal) (tupleize clsVal) with
        | .error e => .error e
        | .ok true => type_check_params w tc mroParametrization clsParametrization rest
        | .ok false => .ok false

/-- The outer MRO loop of `type_check`: try each linearized ancestor sharing
`cls`'s origin; the first fully matching one succeeds. -/
def type_check_mro_loop (w : World) (tc : Ty → Ty → Except PyExc Bool)
    (cls : Alias) : List Alias → Except PyExc Bool
  | [] => .ok false
  | entry :: rest =>
    if entry.1 = cls.1 then
      match get_parametrization w (.tyV (.alias entry.1 entry.2)) with
      | .error e => .error e
      | .ok mroParametrization =>
        match get_parametrization w (.tyV (.alias cls.1 cls.2)) with
        | .error e => .error e
        | .ok clsParametrization =>
          match type_check_params w tc mroParametrization clsParametrization
              (w.classes cls.1) with
          | .error e => .error e
          | .ok true => .ok true
          | .ok false => type_check_mro_loop w tc cls rest
    else type_check_mro_loop w tc cls rest

/-- `type_check(subtype, cls)`: canonicalize both sides with `get_alias`,
linearize the subtype, and scan the linearization.  Fuel bounds the recursion
through nested generic-alias arguments (`_inner_type_check` calling back into
`type_check`) and the parent recursion of `get_mro`. -/
def type_check (w : World) : Nat → RGVal → RGVal → Except PyExc Bool
  | 0, _, _ => .error .recursionError
  | fuel + 1, subtype, cls =>
    match get_alias w subtype with
    | .error e => .error e
    | .ok s =>
      match get_alias w cls with
      | .error e => .error e
      | .ok c =>
        match get_mro w (fuel + 1) (.tyV (.alias s.1 s.2)) with
        | .error e => .error e
        | .ok mro =>
          type_check_mro_loop w
            (fun x y => type_check w fuel (.tyV x) (.tyV y)) c mro

/-- Concrete world for the `Foo[T]`, `Bar[T](Foo[T])`, `Baz[T2](Bar[int])`
hierarchy of the spec's scenario, plus `Odd[T](Foo[U])` whose registered
parent mentions a parameter `U` not declared by `Odd`. -/
def wFBB : World where
  classes := fun n =>
    if n = "Foo" then [.tvar "T" .inv]
    else if n = "Bar" then [.tvar "T" .inv]
    else if n = "Baz" then [.tvar "T2" .inv]
    else if n = "Odd" then [.tvar "T" .inv]
    else []
  registry := fun n =>
    if n = "Bar" then [("Foo", [.tvar "T" .inv])]
    else if n = "Baz" then [("Bar", [.base "int"])]
    else if n = "Odd" then [("Foo", [.tvar "U" .inv])]
    else []
  issub := fun a b => a == b

/-- Concrete world for the variadic scenario: `Spam[*Ts]` and
`Ham[*Ts, T](Spam[*Ts])`. -/
def wVar : World where
  classes := fun n =>
    if n = "Spam" then [.tvarTuple "Ts"]
    else if n = "Ham" then [.tvarTuple "Ts", .tvar "T" .inv]
    else []
  registry := fun n =>
    if n = "Ham" then [("Spam", [.unpack (.tvarTuple "Ts")])]
    else []
  issub := fun a b => a == b

/-- Concrete world for the two-argument variance scenario: `TwoArg` with an
invariant first parameter and a second parameter that is covariant
(`TwoArgCo`), invariant (`TwoArgInv`), or contravariant (`TwoArgContra`),
over the host subtype fact `bool` is a subclass of `int`. -/
def wTC : World where
  classes := fun n =>
    if n = "TwoArgCo" then [.tvar "T" .inv, .tvar "S" .cov]
    else if n = "TwoArgInv" then [.tvar "T" .inv, .tvar "S" .inv]
    else if n = "TwoArgContra" then [.tvar "T" .inv, .tvar "S" .contra]
    else []
  registry := fun _ => []
  issub := fun a b => a == b || (a == "bool" && b == "int")

/-- Concrete world with an inconsistent hierarchy: `B[T](A[int])` and
`X[T](A[int], B[int])` — `A[int]` precedes `B[int]` in `X`'s parent list but
follows it in `B`'s linearization. -/
def wBad : World where
  classes := fun n =>
    if n = "A" then [.tvar "T" .inv]
    else if n = "B" then [.tvar "T" .inv]
    else if n = "X" then [.tvar "T" .inv]
    else []
  registry := fun n =>
    if n = "B" then [("A", [.base "int"])]
    else if n = "X" then [("A", [.base "int"]), ("B", [.base "int"])]
    else []
  issub := fun a b => a == b

/-- A value stored in an instance's `__args__` attribute: either the library's
`GenericArgs` marker tuple or an ordinary tuple. -/
inductive ArgsVal where
  | genericArgs (ts : List Ty)
  | plainTuple (ts : List Ty)
deriving DecidableEq

/-- The attribute state of a Python instance relevant to argument capture. -/
structure PyInstance where
  /-- the instance's class -/
  cls : String
  /-- `vars(self)["__args__"]`, when present -/
  argsAttr : Option ArgsVal
  /-- `vars(self)["__origin__"]`, when present -/
  originAttr : Option String
deriving DecidableEq

/-- `runtime_generic_init(self, args, origin)`:
`vars(self).setdefault("__args__", args); vars(self).setdefault("__origin__",
origin)` — the handle's `__args__` is the `GenericArgs` marker tuple. -/
def runtime_generic_init (self : PyInstance) (args : List Ty) (origin : String) :
    PyInstance :=
  { self with
    argsAttr := match self.argsAttr with
      | some v => some v
      | none => some (.genericArgs args)
    originAttr := match self.originAttr with
      | some o => some o
      | none => some origin }

/-- The observable content of an `_AliasProxy` handle: origin and stored
`__args__` (the subscripted argument tuple, wrapped in `GenericArgs`). -/
structure AliasHandle where
  origin : String
  args : List Ty
deriving DecidableEq

/-- `subscript(C, a)`: content of the handle produced by subscripting the
armed class `C` with the argument tuple `a`.  The handle stores the
subscripted arguments as its `__args__` (the normalized form is used as the
identity-cache key; see `subscriptStep`). -/
def subscriptHandle (origin : String) (params : List Ty) : AliasHandle :=
  ⟨origin, params⟩

/-- Result of calling a handle: the final instance, plus the instance's
attribute state at the moment the origin's `__init__` body started running. -/
structure ConstructedInstance where
  inst : PyInstance
  atInitEntry : PyInstance
deriving DecidableEq

/-- `_AliasProxy.__call__`: allocate via `origin.__new__(origin, ...)` (a
fresh instance, no captured-argument attributes), stamp it with
`runtime_generic_init(instance, args=self.__args__, origin=self.__origin__)`,
then run `instance.__init__(...)`.  `atInitEntry` records the attribute state
the initializer body observes. -/
def aliasProxyCall (h : AliasHandle) : ConstructedInstance :=
  let raw : PyInstance := { cls := h.origin, argsAttr := none, originAttr := none }
  let stamped := runtime_generic_init raw h.args h.origin
  { inst := stamped, atInitEntry := stamped }

/-- View a Python instance as a retrieval-API value: an instance stamped with
the `GenericArgs` marker and an origin is an `.inst`; anything else behaves
as a bare instance of its class. -/
def instanceAsRGVal (p : PyInstance) : RGVal :=
  match p.originAttr, p.argsAttr with
  | some o, some (.genericArgs ts) => .inst o ts
  | _, _ => .instBare p.cls

/-- `ALIAS_PROXY_CACHE_MAXSIZE`. -/
def ALIAS_PROXY_CACHE_MAXSIZE : Nat := 128

/-- A raw classmethod declared on an origin: (origin, method name,
`__no_alias__` flag). -/
abbrev RawClassmethod := String × String × Bool

/-- State of the process-wide handle cache and of the classmethod slots of all
origins.  Handles are identified by allocation ids (`__new__` order);
`initLog` records one entry per `__init__` run (each run stores the args,
recomputes the result representation and re-inserts into the cache);
`wrapEvents` records each replacement of a raw classmethod by a
`_ClassMethodProxy`, with the id of the handle it binds. -/
structure AliasCacheState where
  /-- `ALIAS_PROXY_CACHE`, in dict insertion order: cache key
      `(origin, normalized args)` to handle id -/
  entries : List ((String × List Ty) × Nat)
  /-- next fresh handle id -/
  nextId : Nat
  /-- one cache key per `__init__` side-effect run -/
  initLog : List (String × List Ty)
  /-- classmethods still stored raw (not yet replaced by proxies) -/
  rawCms : List RawClassmethod
  /-- performed classmethod replacements: (origin, method, handle id) -/
  wrapEvents : List (String × String × Nat)
deriving DecidableEq

/-- Cache lookup (`ALIAS_PROXY_CACHE.get(key)`). -/
def lookupEntry (entries : List ((String × List Ty) × Nat))
    (key : String × List Ty) : Option Nat :=
  (entries.find? (fun e => decide (e.1 = key))).map (·.2)

/-- Python dict assignment `d[key] = v`: an existing key keeps its position
and gets the new value; a new key is appended. -/
def dictInsert (entries : List ((String × List Ty) × Nat))
    (key : String × List Ty) (v : Nat) : List ((String × List Ty) × Nat) :=
  if entries.any (fun e => decide (e.1 = key)) then
    entries.map (fun e => if e.1 = key then (key, v) else e)
  else
    entries ++ [(key, v)]

/-- `while len(ALIAS_PROXY_CACHE) > ALIAS_PROXY_CACHE_MAXSIZE:
ALIAS_PROXY_CACHE.popitem()` — `popitem` removes the most recently inserted
entry.  The loop runs at most `length` times; the fuel makes that explicit. -/
def evictGo {α : Type} : Nat → List α → List α
  | 0, l => l
  | n + 1, l =>
    if l.length ≤ ALIAS_PROXY_CACHE_MAXSIZE then l else evictGo n l.dropLast

/-- The eviction loop with its (sufficient) natural fuel. -/
def evictLoop {α : Type} (l : List α) : List α :=
  evictGo l.length l

/-- One subscription `_AliasProxy(origin, params)`:
`__new__` normalizes the arguments, consults the cache and reuses the cached
object if present (else allocates a fresh one); then `__init__` runs
unconditionally (Python calls `__init__` on whatever `__new__` returned):
it stores the args and result representation (logged in `initLog`), prunes
the cache and inserts the handle, and replaces every raw classmethod of
`origin` not flagged `__no_alias__` with a `_ClassMethodProxy` bound to this
handle (already-replaced classmethods are no longer `classmethod` instances,
so they are not touched again).  Returns the handle id and the new state. -/
def subscriptStep (st : AliasCacheState) (origin : String) (params : List Ty) :
    Nat × AliasCacheState :=
  let args := normalize_generic_args params
  let key := (origin, args)
  let (selfId, nextId) :=
    match lookupEntry st.entries key with
    | some i => (i, st.nextId)
    | none => (st.nextId, st.nextId + 1)
  let entries := dictInsert (evictLoop st.entries) key selfId
  let wrappedNow := st.rawCms.filter (fun cm => cm.1 == origin && cm.2.2 == false)
  (selfId,
    { entries := entries
      nextId := nextId
      initLog := st.initLog ++ [key]
      rawCms := st.rawCms.filter (fun cm => !(cm.1 == origin && cm.2.2 == false))
      wrapEvents := st.wrapEvents ++ wrappedNow.map (fun cm => (cm.1, cm.2.1, selfId)) })

/-- A cache state before any subscription, for a program whose armed classes
declare the given raw classmethods. -/
def initialCacheState (rawCms : List RawClassmethod) : AliasCacheState :=
  { entries := [], nextId := 0, initLog := [], rawCms := rawCms, wrapEvents := [] }

/-- Run a sequence of subscriptions. -/
def runSubscriptions (st : AliasCacheState) :
    List (String × List Ty) → AliasCacheState
  | [] => st
  | (o, p) :: rest => runSubscriptions (subscriptStep st o p).2 rest

/-- Legacy module (`src/runtime_generics.py`): a value stored in
`instance.__args__` — the `_RuntimeGenericArgs` marker tuple, an ordinary
tuple (e.g. inherited from a plain typing alias), or some non-tuple value. -/
inductive LegacyArgsVal where
  | marker (ts : List Ty)
  | plainTuple (ts : List Ty)
  | otherValue
deriving DecidableEq

/-- Legacy `get_args(instance)`:
`args = getattr(instance, "__args__", ());
return tuple(args) if isinstance(args, _RuntimeGenericArgs) else ()`.
The input is the instance's `__args__` attribute (or `none` when absent). -/
def legacy_get_args : Option LegacyArgsVal → List Ty
  | some (.marker ts) => ts
  | _ => []

/-- Legacy `_note_args`: the attribute value stamped at construction,
`_RuntimeGenericArgs(_typing_get_args(alias))` where the alias's argument
tuple is `aliasArgs`. -/
def legacy_note_args (aliasArgs : List Ty) : LegacyArgsVal :=
  .marker aliasArgs

section CacheLemmas

theorem find_map_overwrite (key : String × List Ty) (v : Nat)
    (l : List ((String × List Ty) × Nat)) :
    ((l.map (fun e => if e.1 = key then (key, v) else e)).find?
      (fun e => decide (e.1 = key))) =
    if l.any (fun e => decide (e.1 = key)) then some (key, v) else none := by
  induction l with
  | nil => simp
  | cons e rest ih =>
    by_cases h : e.1 = key
    · simp [h]
    · simp only [List.map_cons, List.find?_cons, List.any_cons]
      rw [if_neg h]
      simp only [decide_eq_true_eq, h, decide_False, Bool.false_or]
      exact ih

theorem lookupEntry_dictInsert (l : List ((String × List Ty) × Nat))
    (key : String × List Ty) (v : Nat) :
    lookupEntry (dictInsert l key v) key = some v := by
  unfold lookupEntry dictInsert
  by_cases h : l.any (fun e => decide (e.1 = key))
  · rw [if_pos h, find_map_overwrite, if_pos h]
    rfl
  · rw [if_neg h, List.find?_append]
    have hnone : l.find? (fun e => decide (e.1 = key)) = none := by
      rw [List.find?_eq_none]
      intro x hx
      by_contra hc
      exact h (List.any_eq_true.mpr ⟨x, hx, by simpa using hc⟩)
    simp [hnone]

end CacheLemmas

/-- C1: subscripting an armed class with an argument tuple `a` and calling the
resulting handle yields an instance whose captured arguments
(`get_type_arguments`) are exactly `a`, in order, and whose `__args__` /
`__origin__` attributes are already stamped (with the `GenericArgs` marker and
the origin) at the moment the origin's `__init__` body starts running. -/
theorem c1_construct_captures_arguments (origin : String) (a : List Ty) :
    get_type_arguments
      (instanceAsRGVal (aliasProxyCall (subscriptHandle origin a)).inst) = a ∧
    (aliasProxyCall (subscriptHandle origin a)).atInitEntry.argsAttr =
      some (.genericArgs a) ∧
    (aliasProxyCall (subscriptHandle origin a)).atInitEntry.originAttr =
      some origin ∧
    (aliasProxyCall (subscriptHandle origin a)).inst =
      (aliasProxyCall (subscriptHandle origin a)).atInitEntry :=
  ⟨rfl, rfl, rfl, rfl⟩

/-- C2: subscription is identity-stable.  If the cache holds an entry for
`(origin, normalized args)`, subscripting returns exactly that handle (the
`__new__` lookup happens before any eviction); and two successive
subscriptions with argument tuples that normalize equally return the same
handle id. -/
theorem c2_subscription_identity (st : AliasCacheState) (origin : String)
    (p q : List Ty)
    (hnorm : normalize_generic_args p = normalize_generic_args q) :
    (∀ i, lookupEntry st.entries (origin, normalize_generic_args p) = some i →
      (subscriptStep st origin p).1 = i) ∧
    (subscriptStep (subscriptStep st origin p).2 origin q).1 =
      (subscriptStep st origin p).1 := by
  constructor
  · intro i hi
    simp [subscriptStep, hi]
  · cases h : lookupEntry st.entries (origin, normalize_generic_args p) <;>
      simp [subscriptStep, ← hnorm, h, lookupEntry_dictInsert]

/-- Witness for C2 at a concrete input. -/
theorem c2_subscription_identity_witness :
    normalize_generic_args [Ty.base "int"] = normalize_generic_args [Ty.base "int"] ∧
    (subscriptStep (subscriptStep (initialCacheState []) "C" [Ty.base "int"]).2
        "C" [Ty.base "int"]).1 =
      (subscriptStep (initialCacheState []) "C" [Ty.base "int"]).1 :=
  ⟨rfl, (c2_subscription_identity (initialCacheState []) "C"
    [Ty.base "int"] [Ty.base "int"] rfl).2⟩

/-- C10: the legacy `get_args` returns a non-empty tuple only when the
instance's `__args__` attribute is the `_RuntimeGenericArgs` marker tuple
stamped at construction by `_note_args`; an absent `__args__`, an ordinary
tuple, or any other value yields the empty tuple. -/
theorem c10_legacy_get_args_marker_only :
    (∀ v : Option LegacyArgsVal, legacy_get_args v ≠ [] →
      ∃ ts, v = some (.marker ts)) ∧
    (∀ ts, legacy_get_args (some (.plainTuple ts)) = []) ∧
    legacy_get_args (some .otherValue) = [] ∧
    legacy_get_args none = [] ∧
    (∀ ts, legacy_get_args (some (legacy_note_args ts)) = ts) := by
  refine ⟨?_, fun ts => rfl, rfl, rfl, fun ts => rfl⟩
  intro v h
  match v with
  | some (.marker ts) => exact ⟨ts, rfl⟩
  | some (.plainTuple ts) => exact absurd rfl h
  | some .otherValue => exact absurd rfl h
  | none => exact absurd rfl h

/-- Witness for C10 at a concrete input. -/
theorem c10_legacy_get_args_marker_only_witness :
    legacy_get_args (some (.marker [Ty.base "int"])) ≠ [] ∧
    ∃ ts, (some (LegacyArgsVal.marker [Ty.base "int"])) = some (.marker ts) :=
  ⟨by decide, c10_legacy_get_args_marker_only.1
    (some (.marker [Ty.base "int"])) (by decide)⟩

section ParametrizationLemmas

theorem get_parametrization_go_cons (nargs nparams i : Nat) (p : Ty)
    (ps : List Ty) (r : Ty) (rem : List Ty) :
    get_parametrization_go nargs nparams i (p :: ps) (r :: rem) =
      if isTypeVarTuple p then
        if nargs < i + (nparams - i - 1) then .error .valueError
        else
          match get_parametrization_go nargs nparams (i + 1) ps
              ((r :: rem).drop (nargs - i - (nparams - i - 1))) with
          | .error e => .error e
          | .ok rest =>
            .ok ((p, .tup ((r :: rem).take (nargs - i - (nparams - i - 1)))) :: rest)
      else
        match get_parametrization_go nargs nparams (i + 1) ps rem with
        | .error e => .error e
        | .ok rest => .ok ((p, r) :: rest) := rfl

theorem get_parametrization_go_no_group (nargs nparams : Nat) :
    ∀ (ps : List Ty) (i : Nat) (rem : List Ty),
    (∀ p ∈ ps, isTypeVarTuple p = false) →
    ps.length ≤ rem.length →
    get_parametrization_go nargs nparams i ps rem = .ok (ps.zip rem) := by
  intro ps
  induction ps with
  | nil => intro i rem _ _; rfl
  | cons p ps' ih =>
    intro i rem hno hlen
    have hp : isTypeVarTuple p = false := hno p (List.mem_cons_self p ps')
    cases rem with
    | nil => simp at hlen
    | cons r rem' =>
      rw [get_parametrization_go_cons, if_neg (by simp [hp])]
      rw [ih (i + 1) rem' (fun q hq => hno q (List.mem_cons_of_mem p hq))
        (by simpa using hlen)]
      rfl

theorem get_parametrization_go_group (nargs nparams : Nat) :
    ∀ (ps1 : List Ty) (i : Nat) (rem : List Ty) (n : String) (ps2 : List Ty),
    (∀ p ∈ ps1, isTypeVarTuple p = false) →
    (∀ p ∈ ps2, isTypeVarTuple p = false) →
    nargs = i + rem.length →
    nparams = i + ps1.length + 1 + ps2.length →
    ps1.length + ps2.length ≤ rem.length →
    get_parametrization_go nargs nparams i (ps1 ++ .tvarTuple n :: ps2) rem =
      .ok (ps1.zip rem ++
        (.tvarTuple n, .tup ((rem.drop ps1.length).take
          (rem.length - ps1.length - ps2.length))) ::
        ps2.zip (rem.drop (rem.length - ps2.length))) := by
  intro ps1
  induction ps1 with
  | nil =>
    intro i rem n ps2 _ hno2 hnargs hnparams hlen
    simp only [List.length_nil, Nat.add_zero] at hnparams hlen
    cases rem with
    | nil =>
      rw [List.nil_append, get_parametrization_go]
      rw [if_pos (by simp [isTypeVarTuple])]
      have hafter : nparams - i - 1 = ps2.length := by omega
      have hps2 : ps2 = [] := List.eq_nil_of_length_eq_zero (by simpa using hlen)
      subst hps2
      rw [hafter, if_neg (by omega)]
      simp [get_parametrization_go]
    | cons r rem' =>
      rw [List.nil_append, get_parametrization_go_cons,
        if_pos (by simp [isTypeVarTuple])]
      have hafter : nargs - i - (nparams - i - 1) =
          (r :: rem').length - ps2.length := by
        simp only [List.length_cons] at hnargs ⊢; omega
      rw [if_neg (by omega), hafter]
      rw [get_parametrization_go_no_group nargs nparams ps2 (i + 1)
        ((r :: rem').drop ((r :: rem').length - ps2.length)) hno2
        (by rw [List.length_drop]; omega)]
      simp
  | cons p ps1' ih =>
    intro i rem n ps2 hno1 hno2 hnargs hnparams hlen
    have hp : isTypeVarTuple p = false := hno1 p (List.mem_cons_self p ps1')
    cases rem with
    | nil => simp at hlen
    | cons r rem' =>
      rw [List.cons_append, get_parametrization_go_cons, if_neg (by simp [hp])]
      rw [ih (i + 1) rem' n ps2 (fun q hq => hno1 q (List.mem_cons_of_mem p hq))
        hno2 (by simp only [List.length_cons] at hnargs ⊢; omega)
        (by simp only [List.length_cons] at hnparams ⊢; omega)
        (by simp only [List.length_cons] at hlen ⊢; omega)]
      have h1 : (r :: rem').length - ps2.length = (rem'.length - ps2.length) + 1 := by
        simp only [List.length_cons] at hlen ⊢; omega
      have h2 : (r :: rem').length - (p :: ps1').length - ps2.length =
          rem'.length - ps1'.length - ps2.length := by
        simp only [List.length_cons]; omega
      rw [h1, h2]
      simp only [List.zip_cons_cons, List.length_cons, List.drop_succ_cons,
        List.cons_append]

end ParametrizationLemmas

/-- C4: the Parametrization Resolver maps each non-group parameter to exactly
one argument in order (`zip`); the one variable-length group parameter at
position `i = ps1.length` consumes exactly
`len(args) - i - (count of params after i)` arguments as a sub-tuple; and an
empty argument tuple yields the empty mapping.  Concretely, with `Spam[*Ts]`
and `Ham[*Ts, T](Spam[*Ts])`,
`get_parametrization(Ham[float, str, bytes]) == {Ts: (float, str), T: bytes}`. -/
theorem c4_parametrization_resolver :
    (∀ params : List Ty, get_parametrization_impl params [] = .ok []) ∧
    (∀ params args : List Ty, (∀ p ∈ params, isTypeVarTuple p = false) →
      args ≠ [] → params.length ≤ args.length →
      get_parametrization_impl params args = .ok (params.zip args)) ∧
    (∀ (ps1 : List Ty) (n : String) (ps2 args : List Ty),
      (∀ p ∈ ps1, isTypeVarTuple p = false) →
      (∀ p ∈ ps2, isTypeVarTuple p = false) →
      args ≠ [] → ps1.length + ps2.length ≤ args.length →
      get_parametrization_impl (ps1 ++ .tvarTuple n :: ps2) args =
        .ok (ps1.zip args ++
          (.tvarTuple n, .tup ((args.drop ps1.length).take
            (args.length - ps1.length - ps2.length))) ::
          ps2.zip (args.drop (args.length - ps2.length)))) ∧
    get_parametrization wVar
      (.tyV (.alias "Ham" [.base "float", .base "str", .base "bytes"])) =
      .ok [(.tvarTuple "Ts", .tup [.base "float", .base "str"]),
           (.tvar "T" .inv, .base "bytes")] := by
  refine ⟨fun params => rfl, ?_, ?_, rfl⟩
  · intro params args hno hne hlen
    rw [get_parametrization_impl, if_neg (by simpa using hne)]
    exact get_parametrization_go_no_group _ _ params 0 args hno hlen
  · intro ps1 n ps2 args h1 h2 hne hlen
    rw [get_parametrization_impl, if_neg (by simpa using hne)]
    exact get_parametrization_go_group _ _ ps1 0 args n ps2 h1 h2 (by omega)
      (by simp only [List.length_append, List.length_cons]; omega) hlen

/-- Witness for C4 at the concrete `Ham[*Ts, T]` scenario. -/
theorem c4_parametrization_resolver_witness :
    ([Ty.base "float", Ty.base "str", Ty.base "bytes"] : List Ty) ≠ [] ∧
    get_parametrization_impl [Ty.tvarTuple "Ts", Ty.tvar "T" Variance.inv]
        [Ty.base "float", Ty.base "str", Ty.base "bytes"] =
      .ok [(Ty.tvarTuple "Ts", Ty.tup [Ty.base "float", Ty.base "str"]),
           (Ty.tvar "T" Variance.inv, Ty.base "bytes")] :=
  ⟨by decide,
    c4_parametrization_resolver.2.2.1 [] "Ts" [Ty.tvar "T" Variance.inv]
      [Ty.base "float", Ty.base "str", Ty.base "bytes"]
      (by decide) (by decide) (by decide) (by decide)⟩

section MroLemmas

theorem c3Go_succ {A : Type} [DecidableEq A] (n : Nat) (seqs : List (List A)) :
    c3Go (n + 1) seqs =
      (let ss := seqs.filter (fun s => !s.isEmpty)
       if ss.isEmpty then .ok []
       else
         match findC3Candidate ss ss with
         | none => .error .runtimeError
         | some c =>
           match c3Go n (ss.map (stripHead c)) with
           | .error e => .error e
           | .ok r => .ok (c :: r)) := rfl

theorem get_mro_succ (w : World) (fuel : Nat) (cls : RGVal) :
    get_mro w (fuel + 1) cls =
      (match get_alias w cls with
       | .error e => .error e
       | .ok selfAlias =>
         match get_parents w cls with
         | .error e => .error e
         | .ok parents =>
           match parents.mapM (fun p => get_mro w fuel (.tyV (.alias p.1 p.2))) with
           | .error e => .error e
           | .ok parentMros => c3_merge ([selfAlias] :: parentMros ++ [parents])) :=
  rfl

theorem c3_merge_head {A : Type} [DecidableEq A] (a : A) (rest : List (List A))
    (h : ∀ s ∈ rest, a ∉ s.tail) (l : List A)
    (hok : c3_merge ([a] :: rest) = .ok l) : l.head? = some a := by
  unfold c3_merge at hok
  rw [c3Go_succ] at hok
  have hfil : ([a] :: rest).filter (fun s => !s.isEmpty) =
      [a] :: rest.filter (fun s => !s.isEmpty) := rfl
  simp only [hfil, List.isEmpty_cons, Bool.false_eq_true, if_false] at hok
  have hfind : findC3Candidate ([a] :: rest.filter (fun s => !s.isEmpty))
      ([a] :: rest.filter (fun s => !s.isEmpty)) =
      if ∀ s2 ∈ [a] :: rest.filter (fun s => !s.isEmpty), a ∉ s2.tail then some a
      else findC3Candidate ([a] :: rest.filter (fun s => !s.isEmpty))
        (rest.filter (fun s => !s.isEmpty)) := rfl
  have hcond : ∀ s2 ∈ [a] :: rest.filter (fun s => !s.isEmpty), a ∉ s2.tail := by
    intro s2 hs2
    rcases List.mem_cons.mp hs2 with h1 | h2
    · subst h1; exact List.not_mem_nil a
    · exact h s2 (List.mem_of_mem_filter h2)
  have hfind2 : findC3Candidate ([a] :: rest.filter (fun s => !s.isEmpty))
      ([a] :: rest.filter (fun s => !s.isEmpty)) = some a := by
    rw [hfind, if_pos hcond]
  simp only [hfind2] at hok
  cases hgo : c3Go (totalLen ([a] :: rest))
      ((([a] :: rest.filter (fun s => !s.isEmpty))).map (stripHead a)) with
  | error e => simp only [hgo] at hok; exact Except.noConfusion hok
  | ok r =>
    simp only [hgo] at hok
    have hl : a :: r = l := by simpa using hok
    rw [← hl]
    rfl

end MroLemmas

/-- C6: `get_mro` lists the canonical parametrized-alias form of the queried
value first (its `get_alias`; "any"-filled for a bare class), provided the
hierarchy does not place that alias in any ancestor sequence's tail; and
`get_mro` of a parametrized handle coincides with `get_mro` of any instance
constructed from that handle, at every fuel.  Concretely, `Baz[str]` and bare
`Baz` linearize to `(self, Bar[int], Foo[int])` with the respective self
entries. -/
theorem c6_get_mro_self_first_and_instance_consistency :
    (∀ (w : World) (fuel : Nat) (o : String) (as : List Ty),
      get_mro w fuel
        (instanceAsRGVal (aliasProxyCall (subscriptHandle o as)).inst) =
      get_mro w fuel (.tyV (.alias o as))) ∧
    (∀ (w : World) (f : Nat) (rg : RGVal) (a : Alias) (ps : List Alias)
        (pms : List (List Alias)) (l : List Alias),
      get_alias w rg = .ok a →
      get_parents w rg = .ok ps →
      ps.mapM (fun p => get_mro w f (.tyV (.alias p.1 p.2))) = .ok pms →
      (∀ s ∈ pms, a ∉ s.tail) → a ∉ ps.tail →
      get_mro w (f + 1) rg = .ok l →
      l.head? = some a) ∧
    get_mro wFBB 5 (.tyV (.alias "Baz" [.base "str"])) =
      .ok [("Baz", [.base "str"]), ("Bar", [.base "int"]), ("Foo", [.base "int"])] ∧
    get_mro wFBB 5 (.cls "Baz") =
      .ok [("Baz", [.anyTy]), ("Bar", [.base "int"]), ("Foo", [.base "int"])] ∧
    get_mro wFBB 5 (.instBare "Baz") = get_mro wFBB 5 (.cls "Baz") := by
  refine ⟨?_, ?_, rfl, rfl, rfl⟩
  · intro w fuel o as
    cases fuel <;> rfl
  · intro w f rg a ps pms l ha hp hm hpm hps hok
    simp only [get_mro_succ, ha, hp, hm] at hok
    refine c3_merge_head a (pms ++ [ps]) ?_ l hok
    intro s hs
    rcases List.mem_append.mp hs with h1 | h2
    · exact hpm s h1
    · rcases List.mem_cons.mp h2 with h3 | h4
      · subst h3; exact hps
      · exact absurd h4 (List.not_mem_nil s)

/-- Witness for C6's self-first statement at `Baz[str]` in the
`Foo`/`Bar`/`Baz` world. -/
theorem c6_get_mro_self_first_witness :
    get_alias wFBB (.tyV (.alias "Baz" [Ty.base "str"])) =
      .ok ("Baz", [Ty.base "str"]) ∧
    (.ok [("Baz", [Ty.base "str"]), ("Bar", [Ty.base "int"]),
      ("Foo", [Ty.base "int"])] : Except PyExc (List Alias)).isOk = true ∧
    [("Baz", [Ty.base "str"]), ("Bar", [Ty.base "int"]),
      ("Foo", [Ty.base "int"])].head? = some ("Baz", [Ty.base "str"]) :=
  ⟨rfl, rfl,
    c6_get_mro_self_first_and_instance_consistency.2.1 wFBB 4
      (.tyV (.alias "Baz" [Ty.base "str"])) ("Baz", [Ty.base "str"])
      [("Bar", [Ty.base "int"])] [[("Bar", [Ty.base "int"]), ("Foo", [Ty.base "int"])]]
      [("Baz", [Ty.base "str"]), ("Bar", [Ty.base "int"]), ("Foo", [Ty.base "int"])]
      rfl rfl rfl (by decide) (by decide) rfl⟩

section SideEffectLemmas

theorem subscriptStep_initLog (st : AliasCacheState) (o : String) (p : List Ty) :
    (subscriptStep st o p).2.initLog =
      st.initLog ++ [(o, normalize_generic_args p)] := by
  cases h : lookupEntry st.entries (o, normalize_generic_args p) <;>
    simp [subscriptStep, h]

theorem subscriptStep_no_rewrap (st : AliasCacheState) (o : String)
    (p q : List Ty) :
    (subscriptStep (subscriptStep st o p).2 o q).2.wrapEvents =
      (subscriptStep st o p).2.wrapEvents := by
  have hnil : ∀ (l : List RawClassmethod),
      ((l.filter (fun cm => !(cm.1 == o && cm.2.2 == false))).filter
        (fun cm => cm.1 == o && cm.2.2 == false)) = [] := by
    intro l
    rw [List.filter_eq_nil_iff]
    intro a ha
    have h1 := List.of_mem_filter ha
    simp only [Bool.not_eq_true'] at h1
    simp only [Bool.and_eq_true, beq_iff_eq, not_and]
    intro h2
    simp only [h2, beq_self_eq_true, Bool.true_and] at h1
    simpa using h1
  cases h1 : lookupEntry st.entries (o, normalize_generic_args p) <;>
    cases h2 : lookupEntry (subscriptStep st o p).2.entries
      (o, normalize_generic_args q) <;>
    simp [subscriptStep, h1, h2, hnil]

theorem subscriptStep_wrap_inv (st : AliasCacheState) (o : String) (p : List Ty)
    (h : (st.wrapEvents.map (fun e => (e.1, e.2.1)) ++
      st.rawCms.map (fun cm => (cm.1, cm.2.1))).Nodup) :
    ((subscriptStep st o p).2.wrapEvents.map (fun e => (e.1, e.2.1)) ++
      (subscriptStep st o p).2.rawCms.map (fun cm => (cm.1, cm.2.1))).Nodup := by
  have hperm :
      ((subscriptStep st o p).2.wrapEvents.map (fun e => (e.1, e.2.1)) ++
        (subscriptStep st o p).2.rawCms.map (fun cm => (cm.1, cm.2.1))).Perm
      (st.wrapEvents.map (fun e => (e.1, e.2.1)) ++
        st.rawCms.map (fun cm => (cm.1, cm.2.1))) := by
    cases hl : lookupEntry st.entries (o, normalize_generic_args p) <;>
    · simp only [subscriptStep, hl, List.map_append, List.map_map, Function.comp]
      rw [List.append_assoc]
      refine List.Perm.append_left _ ?_
      have hp := (List.filter_append_perm
        (fun cm : RawClassmethod => cm.1 == o && cm.2.2 == false)
        st.rawCms).map (fun cm => (cm.1, cm.2.1))
      simpa [List.map_append] using hp
  exact (hperm.nodup_iff).mpr h

theorem runSubscriptions_wrap_nodup :
    ∀ (subs : List (String × List Ty)) (st : AliasCacheState),
    (st.wrapEvents.map (fun e => (e.1, e.2.1)) ++
      st.rawCms.map (fun cm => (cm.1, cm.2.1))).Nodup →
    ((runSubscriptions st subs).wrapEvents.map (fun e => (e.1, e.2.1))).Nodup := by
  intro subs
  induction subs with
  | nil =>
    intro st h
    exact ((List.nodup_append.mp h).1)
  | cons s rest ih =>
    intro st h
    exact ih (subscriptStep st s.1 s.2).2 (subscriptStep_wrap_inv st s.1 s.2 h)

end SideEffectLemmas

/-- C7 counterexample: subscripting the same `(origin, args)` pair twice runs
the `__init__` side effects (store args, recompute the result representation,
re-insert into the cache) twice, not once — Python calls `__init__` on the
instance `__new__` returns even when it is the cached handle.  The
classmethod-replacement side effect, by contrast, is not re-performed. -/
theorem c7_counterexample_side_effects_rerun :
    ((subscriptStep
        (subscriptStep (initialCacheState [("C", "m", false)]) "C"
          [Ty.base "int"]).2 "C" [Ty.base "int"]).2.initLog.filter
      (fun k => decide (k = ("C", [Ty.base "int"])))).length = 2 ∧
    (2 : Nat) ≠ 1 ∧
    (subscriptStep
        (subscriptStep (initialCacheState [("C", "m", false)]) "C"
          [Ty.base "int"]).2 "C" [Ty.base "int"]).2.wrapEvents =
      [("C", "m", 0)] :=
  ⟨rfl, by decide, rfl⟩

/-- C7 (amended): the `__init__` side effects — storing normalized args,
computing the result representation, and (re-)inserting into the cache — run
on every subscription, including repeated subscriptions of the same pair
(idempotently, on the cached handle); only the replacement of classmethods
with rebinding proxies happens at most once per (origin, classmethod): a
repeat subscription of the same origin performs no replacement, and over any
subscription sequence each (origin, classmethod) pair is replaced at most
once. -/
theorem c7_amended_side_effects :
    (∀ (st : AliasCacheState) (o : String) (p : List Ty),
      (subscriptStep st o p).2.initLog =
        st.initLog ++ [(o, normalize_generic_args p)]) ∧
    (∀ (st : AliasCacheState) (o : String) (p q : List Ty),
      (subscriptStep (subscriptStep st o p).2 o q).2.wrapEvents =
        (subscriptStep st o p).2.wrapEvents) ∧
    (∀ (rawCms : List RawClassmethod) (subs : List (String × List Ty)),
      (rawCms.map (fun cm => (cm.1, cm.2.1))).Nodup →
      ((runSubscriptions (initialCacheState rawCms) subs).wrapEvents.map
        (fun e => (e.1, e.2.1))).Nodup) :=
  ⟨subscriptStep_initLog, subscriptStep_no_rewrap,
    fun rawCms subs h =>
      runSubscriptions_wrap_nodup subs (initialCacheState rawCms)
        (by simpa [initialCacheState] using h)⟩

/-- Witness for C7's amended wrap-uniqueness statement on a concrete run. -/
theorem c7_amended_side_effects_witness :
    ((([("C", "m", false), ("D", "k", false)] : List RawClassmethod)).map
      (fun cm => (cm.1, cm.2.1))).Nodup ∧
    ((runSubscriptions
        (initialCacheState [("C", "m", false), ("D", "k", false)])
        [("C", [Ty.base "int"]), ("C", [Ty.base "str"]),
         ("D", [Ty.base "int"])]).wrapEvents.map
      (fun e => (e.1, e.2.1))).Nodup :=
  ⟨by decide,
    c7_amended_side_effects.2.2 [("C", "m", false), ("D", "k", false)]
      [("C", [Ty.base "int"]), ("C", [Ty.base "str"]), ("D", [Ty.base "int"])]
      (by decide)⟩

section CacheSizeLemmas

theorem evictGo_length_le {α : Type} :
    ∀ (n : Nat) (l : List α), l.length ≤ n →
    (evictGo n l).length ≤ ALIAS_PROXY_CACHE_MAXSIZE := by
  intro n
  induction n with
  | zero =>
    intro l h
    have : l = [] := List.eq_nil_of_length_eq_zero (Nat.le_zero.mp h)
    subst this
    simp [evictGo, ALIAS_PROXY_CACHE_MAXSIZE]
  | succ n ih =>
    intro l h
    rw [evictGo]
    by_cases hl : l.length ≤ ALIAS_PROXY_CACHE_MAXSIZE
    · rw [if_pos hl]; exact hl
    · rw [if_neg hl]
      exact ih l.dropLast (by simp [List.length_dropLast]; omega)

theorem evictLoop_length_le {α : Type} (l : List α) :
    (evictLoop l).length ≤ ALIAS_PROXY_CACHE_MAXSIZE :=
  evictGo_length_le l.length l (le_refl _)

theorem evictLoop_eq_self {α : Type} (l : List α)
    (h : l.length ≤ ALIAS_PROXY_CACHE_MAXSIZE) : evictLoop l = l := by
  unfold evictLoop
  cases hl : l.length with
  | zero => rfl
  | succ m => rw [evictGo, if_pos h]

theorem dictInsert_length_le (l : List ((String × List Ty) × Nat))
    (key : String × List Ty) (v : Nat) :
    (dictInsert l key v).length ≤ l.length + 1 := by
  unfold dictInsert
  by_cases h : l.any (fun e => decide (e.1 = key))
  · rw [if_pos h]; simp
  · rw [if_neg h]; simp

end CacheSizeLemmas

/-- C8 (amended): after any subscription, from any prior state, the handle
cache holds at most `ALIAS_PROXY_CACHE_MAXSIZE + 1` entries: `__init__` prunes
the cache down to the capacity before inserting, so the insertion itself can
leave one entry above it. -/
theorem c8_amended_cache_bound (st : AliasCacheState) (o : String)
    (p : List Ty) :
    (subscriptStep st o p).2.entries.length ≤ ALIAS_PROXY_CACHE_MAXSIZE + 1 := by
  cases h : lookupEntry st.entries (o, normalize_generic_args p) <;>
  · simp only [subscriptStep, h]
    exact le_trans (dictInsert_length_le _ _ _)
      (Nat.add_le_add_right (evictLoop_length_le _) 1)

/-- The cache key used by the C8 counterexample run: argument tuples of
pairwise distinct shapes. -/
def c8Key (i : Nat) : String × List Ty :=
  ("C", [Ty.tup (List.replicate i Ty.anyTy)])

/-- The C8 counterexample run: `n` subscriptions with pairwise distinct
argument tuples, starting from an empty cache. -/
def c8Run : Nat → AliasCacheState
  | 0 => initialCacheState []
  | n + 1 => (subscriptStep (c8Run n) "C" [Ty.tup (List.replicate n Ty.anyTy)]).2

theorem c8Key_inj {i j : Nat} (h : c8Key i = c8Key j) : i = j := by
  simp only [c8Key, Prod.mk.injEq, List.cons.injEq, Ty.tup.injEq, true_and,
    and_true] at h
  simpa using congrArg List.length h

theorem c8Run_entries_keys :
    ∀ n, n ≤ ALIAS_PROXY_CACHE_MAXSIZE + 1 →
    (c8Run n).entries.map Prod.fst = (List.range n).map c8Key := by
  intro n
  induction n with
  | zero => intro _; rfl
  | succ n ih =>
    intro h
    have hkeys := ih (by omega)
    have hlen : (c8Run n).entries.length = n := by
      have := congrArg List.length hkeys
      simpa using this
    have hnorm : normalize_generic_args [Ty.tup (List.replicate n Ty.anyTy)] =
        [Ty.tup (List.replicate n Ty.anyTy)] := rfl
    have hfind : (c8Run n).entries.find? (fun e => decide (e.1 = c8Key n)) =
        none := by
      rw [List.find?_eq_none]
      intro e he
      simp only [decide_eq_true_eq]
      intro hek
      have hm : e.1 ∈ (List.range n).map c8Key := by
        rw [← hkeys]
        exact List.mem_map_of_mem Prod.fst he
      rcases List.mem_map.mp hm with ⟨i, hi, hik⟩
      have hin : i < n := List.mem_range.mp hi
      have : i = n := c8Key_inj (hik.trans hek)
      omega
    have hfresh : lookupEntry (c8Run n).entries (c8Key n) = none := by
      simp [lookupEntry, hfind]
    have hany : (c8Run n).entries.any (fun e => decide (e.1 = c8Key n)) =
        false := by
      cases hb : (c8Run n).entries.any (fun e => decide (e.1 = c8Key n)) with
      | false => rfl
      | true =>
        rcases List.any_eq_true.mp hb with ⟨e, he, hek⟩
        exact absurd hek (List.find?_eq_none.mp hfind e he)
    have hevict : evictLoop (c8Run n).entries = (c8Run n).entries :=
      evictLoop_eq_self _ (by rw [hlen]; omega)
    have hstep : c8Run (n + 1) =
        (subscriptStep (c8Run n) "C" [Ty.tup (List.replicate n Ty.anyTy)]).2 :=
      rfl
    rw [hstep]
    simp only [subscriptStep, hnorm]
    rw [show (("C", [Ty.tup (List.replicate n Ty.anyTy)]) : String × List Ty) =
      c8Key n from rfl]
    simp only [hfresh, hevict]
    unfold dictInsert
    rw [if_neg (by simp [hany])]
    rw [List.map_append, hkeys, List.range_succ, List.map_append]
    rfl

/-- C8 counterexample: starting from an empty cache, 129 subscriptions with
pairwise distinct `(origin, args)` pairs leave
`ALIAS_PROXY_CACHE_MAXSIZE + 1 = 129` entries resident — the cache size does
exceed the configured capacity (by one). -/
theorem c8_counterexample_cache_exceeds_capacity :
    (c8Run (ALIAS_PROXY_CACHE_MAXSIZE + 1)).entries.length =
      ALIAS_PROXY_CACHE_MAXSIZE + 1 ∧
    ¬((c8Run (ALIAS_PROXY_CACHE_MAXSIZE + 1)).entries.length ≤
      ALIAS_PROXY_CACHE_MAXSIZE) := by
  have h := c8Run_entries_keys (ALIAS_PROXY_CACHE_MAXSIZE + 1) (le_refl _)
  have hlen : (c8Run (ALIAS_PROXY_CACHE_MAXSIZE + 1)).entries.length =
      ALIAS_PROXY_CACHE_MAXSIZE + 1 := by
    have := congrArg List.length h
    simpa using this
  exact ⟨hlen, by omega⟩

section C3MergeTheory

/-- The per-iteration purge of empty sequences in `_c3_merge`. -/
def c3Filter {A : Type} (seqs : List (List A)) : List (List A) :=
  seqs.filter (fun s => !s.isEmpty)

/-- A merge state on which `_c3_merge` raises `RuntimeError("Inconsistent
hierarchy")`: nonempty sequences remain but no head is eligible. -/
def C3Stuck {A : Type} [DecidableEq A] (seqs : List (List A)) : Prop :=
  c3Filter seqs ≠ [] ∧ findC3Candidate (c3Filter seqs) (c3Filter seqs) = none

/-- One iteration of the `_c3_merge` loop: pick the candidate and delete it
from every sequence having it as head. -/
def C3Step {A : Type} [DecidableEq A] (seqs seqs' : List (List A)) : Prop :=
  ∃ c, findC3Candidate (c3Filter seqs) (c3Filter seqs) = some c ∧
    seqs' = (c3Filter seqs).map (stripHead c)

theorem findC3Candidate_mem {A : Type} [DecidableEq A] (all : List (List A)) :
    ∀ (ss : List (List A)) (c : A), findC3Candidate all ss = some c →
    ∃ s ∈ ss, s.head? = some c := by
  intro ss
  induction ss with
  | nil => intro c h; exact absurd h (by simp [findC3Candidate])
  | cons s rest ih =>
    intro c h
    cases s with
    | nil =>
      rcases ih c (by simpa [findC3Candidate] using h) with ⟨t, ht, hh⟩
      exact ⟨t, List.mem_cons_of_mem _ ht, hh⟩
    | cons x t =>
      rw [findC3Candidate] at h
      by_cases hcond : ∀ s2 ∈ all, x ∉ s2.tail
      · rw [if_pos hcond] at h
        have hx : x = c := Option.some.inj h
        subst hx
        exact ⟨x :: t, List.mem_cons_self _ _, rfl⟩
      · rw [if_neg hcond] at h
        rcases ih c h with ⟨t', ht', hh⟩
        exact ⟨t', List.mem_cons_of_mem _ ht', hh⟩

theorem totalLen_cons {A : Type} (s : List A) (rest : List (List A)) :
    totalLen (s :: rest) = s.length + totalLen rest := by
  simp [totalLen]

theorem totalLen_filter_le {A : Type} (p : List A → Bool)
    (seqs : List (List A)) : totalLen (seqs.filter p) ≤ totalLen seqs := by
  induction seqs with
  | nil => simp [totalLen]
  | cons s rest ih =>
    rw [List.filter_cons]
    by_cases hp : p s
    · rw [if_pos hp, totalLen_cons, totalLen_cons]
      exact Nat.add_le_add_left ih _
    · rw [if_neg hp, totalLen_cons]
      exact le_trans ih (Nat.le_add_left _ _)

theorem stripHead_length_le {A : Type} [DecidableEq A] (c : A) (s : List A) :
    (stripHead c s).length ≤ s.length := by
  cases s with
  | nil => exact le_refl _
  | cons x t =>
    rw [stripHead]
    by_cases hx : x = c
    · rw [if_pos hx]; simp
    · rw [if_neg hx]

theorem totalLen_map_stripHead_le {A : Type} [DecidableEq A] (c : A)
    (ss : List (List A)) :
    totalLen (ss.map (stripHead c)) ≤ totalLen ss := by
  induction ss with
  | nil => simp [totalLen]
  | cons s rest ih =>
    rw [List.map_cons, totalLen_cons, totalLen_cons]
    exact Nat.add_le_add (stripHead_length_le c s) ih

theorem totalLen_map_stripHead_lt {A : Type} [DecidableEq A] (c : A) :
    ∀ (ss : List (List A)), (∃ s ∈ ss, s.head? = some c) →
    totalLen (ss.map (stripHead c)) < totalLen ss := by
  intro ss
  induction ss with
  | nil => rintro ⟨s, hs, _⟩; exact absurd hs (List.not_mem_nil s)
  | cons s rest ih =>
    rintro ⟨t, ht, hh⟩
    rw [List.map_cons, totalLen_cons, totalLen_cons]
    rcases List.mem_cons.mp ht with rfl | hmem
    · cases t with
      | nil => exact absurd hh (by simp)
      | cons x u =>
        have hx : x = c := by simpa using hh
        subst hx
        rw [stripHead, if_pos rfl]
        have := totalLen_map_stripHead_le x rest
        simp only [List.length_cons]
        omega
    · have hstrict := ih ⟨t, hmem, hh⟩
      have := stripHead_length_le c s
      omega

theorem C3Step_totalLen_lt {A : Type} [DecidableEq A]
    {seqs seqs' : List (List A)} (h : C3Step seqs seqs') :
    totalLen seqs' < totalLen seqs := by
  rcases h with ⟨c, hc, rfl⟩
  rcases findC3Candidate_mem _ _ c hc with ⟨s, hs, hh⟩
  exact lt_of_lt_of_le (totalLen_map_stripHead_lt c _ ⟨s, hs, hh⟩)
    (totalLen_filter_le _ _)

theorem c3Go_runtimeError_iff {A : Type} [DecidableEq A] :
    ∀ (n : Nat) (seqs : List (List A)), totalLen seqs < n →
    (c3Go n seqs = .error .runtimeError ↔
      ∃ s', Relation.ReflTransGen (C3Step (A := A)) seqs s' ∧ C3Stuck s') := by
  intro n
  induction n with
  | zero => intro seqs h; omega
  | succ n ih =>
    intro seqs h
    have hfil : seqs.filter (fun s => !s.isEmpty) = c3Filter seqs := rfl
    rw [c3Go_succ]
    simp only [hfil]
    cases hss : (c3Filter seqs).isEmpty with
    | true =>
      rw [if_pos rfl]
      have hnil : c3Filter seqs = [] := List.isEmpty_iff.mp hss
      constructor
      · intro hfalse; exact absurd hfalse (by simp)
      · rintro ⟨s', hreach, hstuck⟩
        rcases Relation.ReflTransGen.cases_head hreach with rfl | ⟨t, hstep, _⟩
        · exact absurd hnil hstuck.1
        · rcases hstep with ⟨c, hc, _⟩
          rw [hnil] at hc
          exact absurd hc (by simp [findC3Candidate])
    | false =>
      rw [if_neg (by simp)]
      cases hc : findC3Candidate (c3Filter seqs) (c3Filter seqs) with
      | none =>
        constructor
        · intro _
          exact ⟨seqs, Relation.ReflTransGen.refl,
            (by simpa [List.isEmpty_iff] using hss : c3Filter seqs ≠ []), hc⟩
        · intro _; rfl
      | some c =>
        have hstep : C3Step seqs ((c3Filter seqs).map (stripHead c)) :=
          ⟨c, hc, rfl⟩
        have hdec : totalLen ((c3Filter seqs).map (stripHead c)) <
            totalLen seqs := C3Step_totalLen_lt hstep
        have hih := ih ((c3Filter seqs).map (stripHead c)) (by omega)
        constructor
        · intro hl
          cases hgo : c3Go n ((c3Filter seqs).map (stripHead c)) with
          | error e =>
            simp only [hgo] at hl
            have he : e = .runtimeError := by
              simpa using hl
            rcases hih.mp (by rw [hgo, he]) with ⟨s', hreach, hstuck⟩
            exact ⟨s', Relation.ReflTransGen.head hstep hreach, hstuck⟩
          | ok r =>
            simp only [hgo] at hl
            exact Except.noConfusion hl
        · rintro ⟨s', hreach, hstuck⟩
          rcases Relation.ReflTransGen.cases_head hreach with rfl | ⟨t, hstep', hreach'⟩
          · rw [hstuck.2] at hc
            exact Option.noConfusion hc
          · rcases hstep' with ⟨c', hc', ht⟩
            rw [hc] at hc'
            have hcc : c = c' := Option.some.inj hc'
            subst hcc
            subst ht
            simp only [hih.mpr ⟨s', hreach', hstuck⟩]
  
theorem c3_merge_runtimeError_iff {A : Type} [DecidableEq A]
    (seqs : List (List A)) :
    c3_merge seqs = .error .runtimeError ↔
      ∃ s', Relation.ReflTransGen (C3Step (A := A)) seqs s' ∧ C3Stuck s' :=
  c3Go_runtimeError_iff (totalLen seqs + 1) seqs (by omega)

end C3MergeTheory

/-- C9: `_c3_merge` raises `RuntimeError` exactly when the merge loop reaches
a state in which nonempty sequences remain but no head is eligible (so on such
hierarchies the error is raised as soon as that state is reached and no
partial linearization is returned, and on every hierarchy whose merge never
reaches such a state it does not raise).  Concretely, `get_mro` on the
inconsistent `X[T](A[int], B[int])` with `B[T](A[int])` raises
`RuntimeError`, while the consistent `Baz` hierarchy linearizes fully. -/
theorem c9_inconsistent_hierarchy_error :
    (∀ (seqs : List (List Alias)),
      c3_merge seqs = .error .runtimeError ↔
        ∃ s', Relation.ReflTransGen (C3Step (A := Alias)) seqs s' ∧ C3Stuck s') ∧
    get_mro wBad 5 (.tyV (.alias "X" [.base "bool"])) = .error .runtimeError ∧
    get_mro wFBB 5 (.tyV (.alias "Bar" [.base "bool"])) =
      .ok [("Bar", [.base "bool"]), ("Foo", [.base "bool"])] :=
  ⟨fun seqs => c3_merge_runtimeError_iff seqs, rfl, rfl⟩

/-- C3 counterexample: the claim requires a variable-length group parameter to
match only under *exact equality of the two argument groups*, but the code
compares the groups with `map`/`all`, which pairs positionally only up to the
shorter group: `type_check(Spam[int, str], Spam[int])` succeeds although the
two resolved `Ts` groups `(int, str)` and `(int,)` are unequal. -/
theorem c3_counterexample_group_not_exact_equality :
    type_check wVar 5 (.tyV (.alias "Spam" [.base "int", .base "str"]))
      (.tyV (.alias "Spam" [.base "int"])) = .ok true ∧
    get_parametrization wVar (.tyV (.alias "Spam" [.base "int", .base "str"])) =
      .ok [(.tvarTuple "Ts", .tup [.base "int", .base "str"])] ∧
    get_parametrization wVar (.tyV (.alias "Spam" [.base "int"])) =
      .ok [(.tvarTuple "Ts", .tup [.base "int"])] ∧
    ([Ty.base "int", Ty.base "str"] : List Ty) ≠ [Ty.base "int"] :=
  ⟨rfl, rfl, rfl, by decide⟩

/-- C3 (amended): per-parameter comparison of corresponding resolved
arguments: an `Any` on either side matches trivially; for plain types a
covariant parameter requires the subtype-side argument to be a host subclass
of the cls-side argument, a contravariant parameter the reverse, an invariant
parameter exact equality; a variable-length group parameter is compared
elementwise, pairing positionally up to the shorter group, each pair matching
iff either element is `Any` or the two are equal.  Concretely, with
`bool ⊂ int`: `type_check(TwoArg[int, bool], TwoArg[int, int])` is true for a
covariant second parameter, false for invariant, and reversed for
contravariant. -/
theorem c3_amended_variance_comparison :
    (∀ (w : World) (tc : Ty → Ty → Except PyExc Bool) (y p : Ty),
      inner_type_check w tc .anyTy y p = .ok true) ∧
    (∀ (w : World) (tc : Ty → Ty → Except PyExc Bool) (x p : Ty),
      inner_type_check w tc x .anyTy p = .ok true) ∧
    (∀ (w : World) (tc : Ty → Ty → Except PyExc Bool) (a b nm : String),
      inner_type_check w tc (.base a) (.base b) (.tvar nm .cov) =
        .ok (w.issub a b)) ∧
    (∀ (w : World) (tc : Ty → Ty → Except PyExc Bool) (a b nm : String),
      inner_type_check w tc (.base a) (.base b) (.tvar nm .contra) =
        .ok (w.issub b a)) ∧
    (∀ (w : World) (tc : Ty → Ty → Except PyExc Bool) (a b nm : String),
      inner_type_check w tc (.base a) (.base b) (.tvar nm .inv) =
        .ok (decide (a = b))) ∧
    (∀ (w : World) (tc : Ty → Ty → Except PyExc Bool) (x y : Ty) (nm : String),
      x ≠ .anyTy → y ≠ .anyTy →
      inner_type_check w tc x y (.tvarTuple nm) = .ok (decide (x = y))) ∧
    (∀ (w : World) (tc : Ty → Ty → Except PyExc Bool) (nm : String)
        (xs ys : List Ty),
      all_inner_type_check w tc (.tvarTuple nm) xs ys =
        .ok ((xs.zip ys).all (fun q =>
          decide (q.1 = Ty.anyTy) || decide (q.2 = Ty.anyTy) ||
          decide (q.1 = q.2)))) ∧
    wTC.issub "bool" "int" = true ∧
    wTC.issub "int" "bool" = false ∧
    type_check wTC 5 (.tyV (.alias "TwoArgCo" [.base "int", .base "bool"]))
      (.tyV (.alias "TwoArgCo" [.base "int", .base "int"])) = .ok true ∧
    type_check wTC 5 (.tyV (.alias "TwoArgCo" [.base "int", .base "int"]))
      (.tyV (.alias "TwoArgCo" [.base "int", .base "bool"])) = .ok false ∧
    type_check wTC 5 (.tyV (.alias "TwoArgInv" [.base "int", .base "bool"]))
      (.tyV (.alias "TwoArgInv" [.base "int", .base "int"])) = .ok false ∧
    type_check wTC 5 (.tyV (.alias "TwoArgContra" [.base "int", .base "int"]))
      (.tyV (.alias "TwoArgContra" [.base "int", .base "bool"])) = .ok true ∧
    type_check wTC 5 (.tyV (.alias "TwoArgContra" [.base "int", .base "bool"]))
      (.tyV (.alias "TwoArgContra" [.base "int", .base "int"])) = .ok false := by
  refine ⟨?_, ?_, ?_, ?_, ?_, ?_, ?_, rfl, rfl, rfl, rfl, rfl, rfl, rfl⟩
  · intro w tc y p
    simp [inner_type_check]
  · intro w tc x p
    simp [inner_type_check]
  · intro w tc a b nm
    simp [inner_type_check, isTypeVarTuple, isGenericAlias, issubclassE]
  · intro w tc a b nm
    simp [inner_type_check, isTypeVarTuple, isGenericAlias, issubclassE]
  · intro w tc a b nm
    simp [inner_type_check, isTypeVarTuple, isGenericAlias]
  · intro w tc x y nm hx hy
    rw [inner_type_check, if_neg (by simp [hx, hy])]
    simp [isTypeVarTuple]
  · intro w tc nm xs
    induction xs with
    | nil => intro ys; cases ys <;> rfl
    | cons x xs ih =>
      intro ys
      cases ys with
      | nil => rfl
      | cons y ys =>
        by_cases hx : x = Ty.anyTy
        · subst hx
          simp [all_inner_type_check, inner_type_check, ih ys]
        · by_cases hy : y = Ty.anyTy
          · subst hy
            simp [all_inner_type_check, inner_type_check, ih ys]
          · by_cases hxy : x = y
            · subst hxy
              simp only [all_inner_type_check, inner_type_check,
                if_neg (by simp [hx] : ¬(x = Ty.anyTy ∨ x = Ty.anyTy))]
              simp [isTypeVarTuple, ih ys, hx]
            · simp only [all_inner_type_check, inner_type_check,
                if_neg (by simp [hx, hy] : ¬(x = Ty.anyTy ∨ y = Ty.anyTy))]
              simp [isTypeVarTuple, hx, hy, hxy]

/-- Witness for C3's amended group-comparison statement at a concrete pair. -/
theorem c3_amended_variance_comparison_witness :
    (Ty.base "int" ≠ Ty.anyTy) ∧ (Ty.base "str" ≠ Ty.anyTy) ∧
    inner_type_check wTC (fun _ _ => .error .recursionError) (Ty.base "int")
      (Ty.base "str") (.tvarTuple "Ts") =
      .ok (decide (Ty.base "int" = Ty.base "str")) :=
  ⟨by decide, by decide,
    c3_amended_variance_comparison.2.2.2.2.2.1 wTC
      (fun _ _ => .error .recursionError) (Ty.base "int") (Ty.base "str") "Ts"
      (by decide) (by decide)⟩
